import Mathlib

/-!
Shallow embedding of the cmdk-rs terminal assistant core (src/cmdk-rs/src):
strings are lists of characters, file-system state is passed explicitly, and
subprocess/file effects are parameters of the embedded functions.  Each
definition is translated from the named Rust function.
-/

namespace CmdK

/-- Whitespace test used by trimming.  Models ASCII whitespace; Rust's
`str::trim` is Unicode-aware but only these characters matter here. -/
def isWs (c : Char) : Bool :=
  c == ' ' || c == '\t' || c == '\n' || c == '\r'

/-- Rust `str::trim` on a character list: drop whitespace from both ends. -/
def rustTrim (s : List Char) : List Char :=
  ((s.dropWhile isWs).reverse.dropWhile isWs).reverse

/-- `str::starts_with` on character lists. -/
def prefOf : List Char → List Char → Bool
  | [], _ => true
  | _ :: _, [] => false
  | a :: p, b :: s => if a = b then prefOf p s else false

/-- `str::ends_with` on character lists. -/
def sufOf (p s : List Char) : Bool := prefOf p.reverse s.reverse

/-- `str::contains` on character lists (substring occurrence). -/
def occursIn (p : List Char) : List Char → Bool
  | [] => p.isEmpty
  | c :: t => prefOf p (c :: t) || occursIn p t

/-! ## Session store (session.rs) -/

/-- `SESSION_TIMEOUT` (session.rs line 10): one hour, in seconds. -/
def SESSION_TIMEOUT : Nat := 3600

/-- The session transcript file: `none` when absent, otherwise its content
together with the age in seconds of its last modification. -/
abbrev SessionFile := Option (List Char × Nat)

/-- `cleanup_stale_session` (session.rs 38-54): remove the session file when
its last-modified age strictly exceeds the timeout. -/
def cleanupStaleSession : SessionFile → SessionFile
  | some (c, age) => if age > SESSION_TIMEOUT then none else some (c, age)
  | none => none

/-- `get_session_history` (session.rs 57-73): run the lazy cleanup, then read
the file; content that trims to empty counts as no history.  Returns the
history read and the file state after the cleanup. -/
def getSessionHistory (s : SessionFile) : Option (List Char) × SessionFile :=
  match cleanupStaleSession s with
  | some (c, age) => (if rustTrim c = [] then none else some c, some (c, age))
  | none => (none, none)

/-- The pattern `"## User:"` counted by `get_session_turn_count`. -/
def userMark : List Char := "## User:".toList

/-- `history.matches("## User:").count()` (session.rs 78): greedy
non-overlapping matches; a match consumes the 8 pattern characters (the head
plus 7 more). -/
def countMatches : List Char → Nat
  | [] => 0
  | c :: t =>
    if prefOf userMark (c :: t) then 1 + countMatches (t.drop 7)
    else countMatches t
termination_by s => s.length
decreasing_by
  · simp only [List.length_cons, List.length_drop]
    omega
  · simp

/-- `get_session_turn_count` (session.rs 76-82). -/
def getSessionTurnCount (s : SessionFile) : Nat :=
  match (getSessionHistory s).1 with
  | some h => countMatches h
  | none => 0

/-- `append_to_session` (session.rs 85-110): read the existing file raw
(without the staleness cleanup), append the formatted turn, write it back;
the fresh write resets the file age to 0. -/
def appendToSession (s : SessionFile) (userMessage response : List Char) :
    SessionFile :=
  let old := match s with
    | some (c, _) => c
    | none => []
  some (old ++ ("## User: ".toList ++ (userMessage ++ ("\n\n".toList ++
    ("## Assistant:\n".toList ++ (response ++ "\n\n".toList))))), 0)

/-- The dedup filter of `get_recent_prompts` (session.rs 176-192), applied to
the reversed history lines: drop a line whose trim is empty or was already
seen; remember the trim of every kept line; kept lines keep their original
text. -/
def dedupNewestFirst (seen : List (List Char)) :
    List (List Char) → List (List Char)
  | [] => []
  | l :: ls =>
    let t := rustTrim l
    if t = [] ∨ t ∈ seen then dedupNewestFirst seen ls
    else l :: dedupNewestFirst (t :: seen) ls

/-- `get_recent_prompts` (session.rs 166-195) on the history file's lines:
reverse, deduplicate, and cap at `limit`. -/
def getRecentPrompts (lines : List (List Char)) (limit : Nat) :
    List (List Char) :=
  (dedupNewestFirst [] lines.reverse).take limit

/-! ## Provider resolution and dispatch (provider.rs) -/

/-- `Provider` (provider.rs 9-14). -/
inductive Provider
  | claude
  | codex
  | custom (cmd : List Char)
  | mock
deriving DecidableEq

/-- `get_current_provider` (provider.rs 39-77): `setting` is the `ai_provider`
settings value, `customCmd` the `custom_provider_cmd` value, and the two
booleans say whether the `claude`/`codex` executables are in PATH. -/
def getCurrentProvider (setting customCmd : List Char)
    (claudeInPath codexInPath : Bool) : Except (List Char) Provider :=
  if setting = "claude".toList then
    if claudeInPath then .ok .claude
    else .error ("claude not found in PATH".toList)
  else if setting = "codex".toList then
    if codexInPath then .ok .codex
    else .error ("codex not found in PATH".toList)
  else if setting = "custom".toList then
    if customCmd = [] then .error ("custom_provider_cmd not set".toList)
    else .ok (.custom customCmd)
  else if setting = "mock".toList then .ok .mock
  else
    if claudeInPath then .ok .claude
    else if codexInPath then .ok .codex
    else .error ("No AI CLI found (install claude or codex)".toList)

/-- The observable outcome of one `run_codex_query` run (provider.rs 137-184):
whether the sidecar output file appeared, its content when it did, and the
subprocess exit status. -/
structure CodexRun where
  fileAppeared : Bool
  fileContent : List Char
  exitSuccess : Bool

/-- `run_codex_query` (provider.rs 137-184) after the subprocess has exited:
read the sidecar file if it exists and delete it; error if it never appeared;
error if the exit failed and the trimmed content is empty; otherwise return
the trimmed content.  The second component records whether the sidecar file
was deleted. -/
def runCodexQuery (r : CodexRun) : Except (List Char) (List Char) × Bool :=
  if r.fileAppeared then
    let response := rustTrim r.fileContent
    if !r.exitSuccess && response.isEmpty then
      (.error ("Codex error".toList), true)
    else
      (.ok response, true)
  else
    (.error ("Codex did not produce output".toList), false)

/-- The fixed system preamble of `build_full_prompt` (provider.rs 235-245). -/
def systemPreamble : List Char :=
  ("You are a terminal command assistant. Output ONLY the exact command to run.\n\nCRITICAL RULES:\n- Output ONLY the command itself - no shell prompts, no $, no explanation\n- No markdown code blocks - just the raw command\n- Single command only (use && or ; for multiple)\n- If asked for explanation, then explain - otherwise just the command\n\n").toList

/-- `build_full_prompt` (provider.rs 232-259). -/
def buildFullPrompt (userQuery ctx : List Char) (history : Option (List Char)) :
    List Char :=
  systemPreamble ++ ctx ++
    (match history with
     | some h => if h ≠ [] then "\n## Previous Conversation:\n".toList ++ h else []
     | none => []) ++
    "\n## User: ".toList ++ userQuery ++ "\n".toList

/-! ## Session state machine (app.rs) -/

/-- `AppState` (app.rs 22-31). -/
inductive AppState
  | mainMenu
  | promptInput
  | loading
  | showingResult (response : List Char)
  | contextView
  | settingsMenu
  | recentPrompts
  | errorState (message : List Char)
deriving DecidableEq

/-- Tri-state outcome of `Receiver::try_recv` on the result channel. -/
inductive PollResult
  | empty
  | received (r : Except (List Char) (List Char))
  | disconnected

/-- The fields of `App` (app.rs 70-108) that the query pipeline touches.
`hasReceiver` stands for `query_receiver.is_some()`. -/
structure AppModel where
  state : AppState
  pendingQuery : Option (List Char)
  hasReceiver : Bool
  sessionTurns : Nat
  lastResponse : Option (List Char)
  resultSelected : Nat
deriving DecidableEq

/-- `App::start_query` (app.rs 155-185).  File and context effects are passed
in: `historyAppend` is the result of `add_to_prompt_history` (whose error the
`?` operator propagates before anything else runs), `ctx` the gathered
context, `history` the prior transcript.  On success the second component
carries the prompt handed to the spawned worker, and the state is Loading. -/
def startQuery (app : AppModel) (query : List Char)
    (historyAppend : Except (List Char) Unit)
    (ctx : List Char) (history : Option (List Char)) :
    AppModel × Except (List Char) (List Char) :=
  match historyAppend with
  | .error e => (app, .error e)
  | .ok _ =>
    ({ app with pendingQuery := some query, hasReceiver := true,
                state := AppState.loading },
     .ok (buildFullPrompt query ctx history))

/-- `App::check_query_complete` (app.rs 188-224).  `poll` is the `try_recv`
outcome (consulted only when a receiver is present), `sessionAppend` the
result of `append_to_session`, `newTurnCount` the refreshed
`get_session_turn_count`.  Returns the mutated app and the `Result<bool>`:
an `error` value is what the `?` on `append_to_session` propagates to the
UI loop, which then aborts. -/
def checkQueryComplete (app : AppModel) (poll : PollResult)
    (sessionAppend : Except (List Char) Unit) (newTurnCount : Nat) :
    AppModel × Except (List Char) Bool :=
  if app.hasReceiver then
    match poll with
    | .received result =>
      let app1 := { app with pendingQuery := none, hasReceiver := false }
      match result with
      | .ok response =>
        match sessionAppend with
        | .error e => (app1, .error e)
        | .ok _ =>
          ({ app1 with sessionTurns := newTurnCount,
                       lastResponse := some response,
                       resultSelected := 0,
                       state := AppState.showingResult response },
           .ok true)
      | .error e => ({ app1 with state := AppState.errorState e }, .ok true)
    | .empty => (app, .ok false)
    | .disconnected =>
      ({ app with hasReceiver := false, pendingQuery := none,
                  state := AppState.errorState
                    ("Query thread disconnected".toList) },
       .ok true)
  else (app, .ok false)

/-! ## Settings menu navigation (app.rs) -/

/-- `SettingsMenuItem` (app.rs 55-67). -/
inductive SettingsItem
  | changeProvider
  | separator
  | toggle (key label : List Char) (enabled : Bool)
  | separator2
  | enableAll
  | disableAll
  | back
deriving DecidableEq

/-- Which rows are non-selectable separators. -/
def isSeparator : SettingsItem → Bool
  | .separator => true
  | .separator2 => true
  | _ => false

/-- The separator-skip loop of the Down branch of `handle_settings_key`
(app.rs 455-463): while the selection is above the last index and sits on a
separator, move it down. -/
def skipDown (items : List SettingsItem) (sel : Nat) : Nat :=
  if h : sel < items.length - 1 ∧ isSeparator (items.getD sel .back) = true then
    skipDown items (sel + 1)
  else sel
termination_by items.length - sel
decreasing_by
  obtain ⟨h1, -⟩ := h
  omega

/-- The separator-skip loop of the Up branch of `handle_settings_key`
(app.rs 440-448): while the selection is above 0 and sits on a separator,
move it up. -/
def skipUp (items : List SettingsItem) (sel : Nat) : Nat :=
  if h : 0 < sel ∧ isSeparator (items.getD sel .back) = true then
    skipUp items (sel - 1)
  else sel
termination_by sel
decreasing_by
  obtain ⟨h1, -⟩ := h
  omega

/-- The Down branch of `handle_settings_key` (app.rs 451-465). -/
def settingsDown (items : List SettingsItem) (sel : Nat) : Nat :=
  if sel < items.length - 1 then skipDown items (sel + 1) else sel

/-- The Up branch of `handle_settings_key` (app.rs 436-450). -/
def settingsUp (items : List SettingsItem) (sel : Nat) : Nat :=
  if 0 < sel then skipUp items (sel - 1) else sel

/-- The settings list of the claim's example:
`[ChangeProvider, Separator, Toggle, Separator2, Back]`. -/
def exampleSettings : List SettingsItem :=
  [.changeProvider, .separator,
   .toggle ("send_git_status".toList) ("Git repository status".toList) true,
   .separator2, .back]

/-! ## Prompt input editing (app.rs, events.rs) -/

/-- The editing actions of `KeyAction` (events.rs 36-50) handled by
`handle_input_key`. -/
inductive EditKey
  | char (c : Char)
  | backspace
  | delete
  | left
  | right
  | home
  | endKey

/-- `char::len_utf8`: the number of bytes of the UTF-8 encoding. -/
def utf8Len (c : Char) : Nat :=
  if c.val < 0x80 then 1
  else if c.val < 0x800 then 2
  else if c.val < 0x10000 then 3
  else 4

/-- Rust `String::len`: the byte length of the UTF-8 encoding. -/
def byteLen (s : List Char) : Nat := (s.map utf8Len).sum

/-- Rust `String::insert` at byte index `i`: `none` models the panic when `i`
is past the end or not on a character boundary. -/
def insertAt (s : List Char) (i : Nat) (c : Char) : Option (List Char) :=
  match s with
  | [] => if i = 0 then some [c] else none
  | d :: t =>
    if i = 0 then some (c :: d :: t)
    else if i < utf8Len d then none
    else (insertAt t (i - utf8Len d) c).map (fun r => d :: r)

/-- Rust `String::remove` of the character at byte index `i`: `none` models
the panic when `i` is at or past the end or not on a character boundary. -/
def removeAt (s : List Char) (i : Nat) : Option (List Char) :=
  match s with
  | [] => none
  | d :: t =>
    if i = 0 then some t
    else if i < utf8Len d then none
    else (removeAt t (i - utf8Len d)).map (fun r => d :: r)

/-- The `input`/`cursor_position` fields of `App`: `cursor` is a byte index
into the UTF-8 encoding of `input`, since the Rust code indexes the `String`
with it. -/
structure InputState where
  input : List Char
  cursor : Nat
deriving DecidableEq

/-- The pure editing branches of `App::handle_input_key` (app.rs 316-364);
`none` models a `String::insert`/`String::remove` boundary panic.  The
cursor moves by one *byte* per character, exactly as `cursor_position += 1`
does in the code. -/
def handleEditKey (st : InputState) (k : EditKey) : Option InputState :=
  match k with
  | .char c => (insertAt st.input st.cursor c).map (fun s => ⟨s, st.cursor + 1⟩)
  | .backspace =>
    if st.cursor > 0 then
      (removeAt st.input (st.cursor - 1)).map (fun s => ⟨s, st.cursor - 1⟩)
    else some st
  | .delete =>
    if st.cursor < byteLen st.input then
      (removeAt st.input st.cursor).map (fun s => ⟨s, st.cursor⟩)
    else some st
  | .left => some (if st.cursor > 0 then ⟨st.input, st.cursor - 1⟩ else st)
  | .right =>
    some (if st.cursor < byteLen st.input then ⟨st.input, st.cursor + 1⟩ else st)
  | .home => some ⟨st.input, 0⟩
  | .endKey => some ⟨st.input, byteLen st.input⟩

/-- Run a sequence of editing actions; `none` as soon as one panics. -/
def runEdits (st : InputState) : List EditKey → Option InputState
  | [] => some st
  | k :: rest => (handleEditKey st k).bind (fun st2 => runEdits st2 rest)

/-- A concrete app in the Loading state with a pending query and a live
receiver, as produced by `start_query`. -/
def appLoading : AppModel :=
  { state := AppState.loading
    pendingQuery := some ("list files".toList)
    hasReceiver := true
    sessionTurns := 0
    lastResponse := none
    resultSelected := 0 }

/-!
## Theorems

One theorem per claim of the specification review, plus supporting lemmas.
-/

/-- C2 (counterexample): on the history lines
`["ls -la", "git status", "ls -la"]`, `get_recent_prompts 10` does not return
`["git status", "ls -la"]`. -/
theorem recent_prompts_claimed_order_false :
    getRecentPrompts ["ls -la".toList, "git status".toList, "ls -la".toList] 10 ≠
      ["git status".toList, "ls -la".toList] := by
  decide

/-- C2 (amended): on the history lines `["ls -la", "git status", "ls -la"]`,
`get_recent_prompts 10` returns `["ls -la", "git status"]` — newest-first,
with duplicate lines collapsed to their first occurrence counted from the end
of the file (so the newest duplicate is kept, in newest-first position). -/
theorem recent_prompts_dedup_newest_first :
    getRecentPrompts ["ls -la".toList, "git status".toList, "ls -la".toList] 10 =
      ["ls -la".toList, "git status".toList] := by
  decide

/-- C4: the sidecar-file protocol errors whenever the output file never
appeared, whatever the exit status; errors when the file appeared, the exit
failed and the content trims to empty; and in every other case returns the
trimmed file contents, the file having been deleted after the read. -/
theorem codex_sidecar_contract (r : CodexRun) :
    (r.fileAppeared = false →
      runCodexQuery r =
        (.error ("Codex did not produce output".toList), false)) ∧
    (r.fileAppeared = true → r.exitSuccess = false →
      rustTrim r.fileContent = [] →
      runCodexQuery r = (.error ("Codex error".toList), true)) ∧
    (r.fileAppeared = true →
      ¬(r.exitSuccess = false ∧ rustTrim r.fileContent = []) →
      runCodexQuery r = (.ok (rustTrim r.fileContent), true)) := by
  obtain ⟨fa, fc, es⟩ := r
  refine ⟨?_, ?_, ?_⟩
  · intro h
    subst h
    simp [runCodexQuery]
  · intro hfa hes htrim
    subst hfa
    subst hes
    simp [runCodexQuery, htrim]
  · intro hfa hnot
    subst hfa
    cases es
    · have htrim : rustTrim fc ≠ [] := fun hh => hnot ⟨rfl, hh⟩
      simp [runCodexQuery, List.isEmpty_iff, htrim]
    · simp [runCodexQuery]

/-- C4 witness: a run where the subprocess exited successfully but the
sidecar file never appeared is an error, not an empty success. -/
theorem codex_sidecar_contract_witness :
    runCodexQuery ⟨false, [], true⟩ =
      (.error ("Codex did not produce output".toList), false) :=
  (codex_sidecar_contract ⟨false, [], true⟩).1 rfl

/-- C7: provider resolution = on `"auto"`, the first of claude-then-codex
present in PATH, a descriptive error when neither is; explicit `"claude"` /
`"codex"` fail when the executable is absent; `"custom"` fails when the
custom command string is empty and otherwise resolves to it. -/
theorem provider_resolution (cc : List Char) (cl cx : Bool) :
    (getCurrentProvider ("auto".toList) cc cl cx =
      if cl then .ok .claude
      else if cx then .ok .codex
      else .error ("No AI CLI found (install claude or codex)".toList)) ∧
    (getCurrentProvider ("claude".toList) cc true cx = .ok .claude) ∧
    (getCurrentProvider ("claude".toList) cc false cx =
      .error ("claude not found in PATH".toList)) ∧
    (getCurrentProvider ("codex".toList) cc cl true = .ok .codex) ∧
    (getCurrentProvider ("codex".toList) cc cl false =
      .error ("codex not found in PATH".toList)) ∧
    (getCurrentProvider ("custom".toList) [] cl cx =
      .error ("custom_provider_cmd not set".toList)) ∧
    (cc ≠ [] →
      getCurrentProvider ("custom".toList) cc cl cx = .ok (.custom cc)) := by
  refine ⟨rfl, rfl, rfl, rfl, rfl, rfl, fun h => ?_⟩
  show (if cc = [] then Except.error ("custom_provider_cmd not set".toList)
    else Except.ok (Provider.custom cc)) = Except.ok (Provider.custom cc)
  rw [if_neg h]

/-- C7 witness: a non-empty custom command resolves to the custom provider. -/
theorem provider_resolution_witness :
    getCurrentProvider ("custom".toList) ("mytool --flag".toList) true false =
      .ok (.custom ("mytool --flag".toList)) :=
  (provider_resolution ("mytool --flag".toList) true false).2.2.2.2.2.2
    (by decide)

/-- C9: every `ai_provider` value other than `"claude"`, `"codex"`,
`"custom"` and `"mock"` — not only `"auto"` — falls into the auto-detection
arm (claude, then codex) instead of being reported as a configuration
error. -/
theorem provider_unknown_auto_detect (setting cc : List Char) (cl cx : Bool)
    (h1 : setting ≠ "claude".toList) (h2 : setting ≠ "codex".toList)
    (h3 : setting ≠ "custom".toList) (h4 : setting ≠ "mock".toList) :
    getCurrentProvider setting cc cl cx =
      if cl then .ok .claude
      else if cx then .ok .codex
      else .error ("No AI CLI found (install claude or codex)".toList) := by
  unfold getCurrentProvider
  rw [if_neg h1, if_neg h2, if_neg h3, if_neg h4]

/-- C9 witness: the unrecognized value `"gibberish"` auto-detects claude. -/
theorem provider_unknown_auto_detect_witness :
    getCurrentProvider ("gibberish".toList) [] true false = .ok .claude := by
  have h := provider_unknown_auto_detect ("gibberish".toList) [] true false
    (by decide) (by decide) (by decide) (by decide)
  simpa using h

/-- C10 (code bug): typing the 2-byte character `é` and then any further
character panics: the cursor advances one byte per character, so after `é`
it sits at byte index 1, strictly inside the character, and the next
`String::insert` hits the boundary assertion. -/
theorem multibyte_edit_panics :
    runEdits ⟨[], 0⟩ [EditKey.char 'é', EditKey.char 'a'] = none ∧
    runEdits ⟨[], 0⟩ [EditKey.char 'é'] = some ⟨['é'], 1⟩ ∧
    byteLen ['é'] = 2 := by
  refine ⟨by decide, by decide, by decide⟩

/-- C1 (code bug): the `?` on `add_to_prompt_history` aborts `start_query`
on a history-append failure before the query is started — the state does not
become Loading and the error propagates — and the `?` on `append_to_session`
makes a session-append failure after a successful query propagate out of
`check_query_complete` with the state left unchanged (still Loading), never
reaching ShowingResult; the UI loop aborts on that propagated error. -/
theorem persistence_failure_blocks (app : AppModel)
    (q e ctx resp : List Char) (hist : Option (List Char)) (n : Nat)
    (hrecv : app.hasReceiver = true) :
    startQuery app q (.error e) ctx hist = (app, .error e) ∧
    (checkQueryComplete app (.received (.ok resp)) (.error e) n).1.state =
      app.state ∧
    (checkQueryComplete app (.received (.ok resp)) (.error e) n).2 =
      .error e := by
  refine ⟨rfl, ?_, ?_⟩ <;> simp [checkQueryComplete, hrecv]

/-- C1 witness: a concrete Loading app with a failing persistence write. -/
theorem persistence_failure_blocks_witness :
    startQuery appLoading ("q".toList) (.error ("disk full".toList)) []
        none = (appLoading, .error ("disk full".toList)) ∧
    (checkQueryComplete appLoading (.received (.ok ("ls".toList)))
        (.error ("disk full".toList)) 1).1.state = appLoading.state ∧
    (checkQueryComplete appLoading (.received (.ok ("ls".toList)))
        (.error ("disk full".toList)) 1).2 =
      .error ("disk full".toList) :=
  persistence_failure_blocks appLoading ("q".toList) ("disk full".toList)
    [] ("ls".toList) none 1 rfl

/-- C3 (counterexample): on a disconnected channel the state machine's error
message is "Query thread disconnected" (capital Q), not the claimed
"query thread disconnected". -/
theorem disconnect_message_capitalized :
    (checkQueryComplete appLoading .disconnected (.ok ()) 0).1.state ≠
      AppState.errorState ("query thread disconnected".toList) ∧
    (checkQueryComplete appLoading .disconnected (.ok ()) 0).1.state =
      AppState.errorState ("Query thread disconnected".toList) :=
  ⟨by decide, by decide⟩

/-- C3 (amended): while Loading with a live receiver, an observed disconnect
moves the state to Error with the fixed message "Query thread disconnected",
destroys the pending query and the receiver, and the query is never retried:
any later poll leaves the app unchanged and reports no completion. -/
theorem disconnect_terminal_failure (app : AppModel)
    (hrecv : app.hasReceiver = true) (sa : Except (List Char) Unit) (n : Nat)
    (laterPoll : PollResult) (laterSa : Except (List Char) Unit) (m : Nat) :
    (checkQueryComplete app .disconnected sa n).1.state =
      AppState.errorState ("Query thread disconnected".toList) ∧
    (checkQueryComplete app .disconnected sa n).1.pendingQuery = none ∧
    (checkQueryComplete app .disconnected sa n).1.hasReceiver = false ∧
    (checkQueryComplete app .disconnected sa n).2 = .ok true ∧
    checkQueryComplete (checkQueryComplete app .disconnected sa n).1
        laterPoll laterSa m =
      ((checkQueryComplete app .disconnected sa n).1, .ok false) := by
  simp [checkQueryComplete, hrecv]

/-- C3 witness: the amended disconnect behaviour at a concrete Loading app. -/
theorem disconnect_terminal_failure_witness :
    (checkQueryComplete appLoading .disconnected (.ok ()) 0).1.state =
      AppState.errorState ("Query thread disconnected".toList) ∧
    (checkQueryComplete appLoading .disconnected (.ok ()) 0).1.pendingQuery =
      none ∧
    (checkQueryComplete appLoading .disconnected (.ok ()) 0).1.hasReceiver =
      false ∧
    (checkQueryComplete appLoading .disconnected (.ok ()) 0).2 = .ok true ∧
    checkQueryComplete (checkQueryComplete appLoading .disconnected
        (.ok ()) 0).1 .empty (.ok ()) 0 =
      ((checkQueryComplete appLoading .disconnected (.ok ()) 0).1,
        .ok false) :=
  disconnect_terminal_failure appLoading rfl (.ok ()) 0 .empty (.ok ()) 0

/-- C6: a transcript file strictly older than the timeout is treated as
absent by `get_session_history` (no history is returned) and is physically
removed by the cleanup step, which runs lazily as part of that access. -/
theorem stale_session_treated_absent (c : List Char) (age : Nat)
    (h : age > SESSION_TIMEOUT) :
    (getSessionHistory (some (c, age))).1 = none ∧
    (getSessionHistory (some (c, age))).2 = none ∧
    cleanupStaleSession (some (c, age)) = none := by
  have hc : cleanupStaleSession (some (c, age)) = none := by
    simp [cleanupStaleSession, h]
  refine ⟨?_, ?_, hc⟩ <;> simp [getSessionHistory, hc]

/-- C6 witness: a one-hour-and-one-second-old transcript is gone. -/
theorem stale_session_treated_absent_witness :
    (getSessionHistory (some ("## User: hi".toList, 3601))).1 = none ∧
    (getSessionHistory (some ("## User: hi".toList, 3601))).2 = none ∧
    cleanupStaleSession (some ("## User: hi".toList, 3601)) = none :=
  stale_session_treated_absent ("## User: hi".toList) 3601 (by decide)

/-- The Down skip loop, started in bounds, lands in bounds, never moves up,
and never lands on a separator when the last row is not one. -/
theorem skipDown_spec (items : List SettingsItem)
    (hlast : isSeparator (items.getD (items.length - 1) .back) = false)
    (j : Nat) (hj : j ≤ items.length - 1) :
    j ≤ skipDown items j ∧ skipDown items j ≤ items.length - 1 ∧
    isSeparator (items.getD (skipDown items j) .back) = false := by
  generalize hm : items.length - 1 - j = m
  induction m generalizing j with
  | zero =>
    have hje : j = items.length - 1 := by omega
    rw [skipDown, dif_neg (by omega)]
    subst hje
    exact ⟨le_rfl, le_rfl, hlast⟩
  | succ m ih =>
    have hlt : j < items.length - 1 := by omega
    rw [skipDown]
    by_cases hsep : isSeparator (items.getD j .back) = true
    · rw [dif_pos ⟨hlt, hsep⟩]
      have h := ih (j + 1) (by omega) (by omega)
      exact ⟨le_trans (by omega) h.1, h.2.1, h.2.2⟩
    · rw [dif_neg (fun hh => hsep hh.2)]
      exact ⟨le_rfl, le_of_lt hlt, by simpa using hsep⟩

/-- The Up skip loop never moves down and, when the first row is not a
separator, never lands on one. -/
theorem skipUp_spec (items : List SettingsItem)
    (hfirst : isSeparator (items.getD 0 .back) = false) (j : Nat) :
    skipUp items j ≤ j ∧
    isSeparator (items.getD (skipUp items j) .back) = false := by
  induction j using Nat.strong_induction_on with
  | _ j ih =>
    rw [skipUp]
    by_cases h : 0 < j ∧ isSeparator (items.getD j .back) = true
    · rw [dif_pos h]
      have hr := ih (j - 1) (by omega)
      exact ⟨le_trans hr.1 (by omega), hr.2⟩
    · rw [dif_neg h]
      refine ⟨le_rfl, ?_⟩
      rcases Nat.eq_zero_or_pos j with h0 | h0
      · subst h0
        exact hfirst
      · have := fun hh => h ⟨h0, hh⟩
        simpa using this

/-- C8: Up/Down in a settings list whose first and last rows are selectable
never lands the selection on a separator, never wraps (Down never decreases
the index, Up never increases it, both stay in bounds); and on the example
list `[ChangeProvider, Separator, Toggle, Separator2, Back]`, two Downs from
`ChangeProvider` land on `Back` at index 4. -/
theorem settings_nav_skips_separators (items : List SettingsItem) (sel : Nat)
    (hfirst : isSeparator (items.getD 0 .back) = false)
    (hlast : isSeparator (items.getD (items.length - 1) .back) = false)
    (hsel : sel < items.length) :
    (sel ≤ settingsDown items sel ∧ settingsDown items sel < items.length ∧
      isSeparator (items.getD (settingsDown items sel) .back) = false) ∧
    (settingsUp items sel ≤ sel ∧ settingsUp items sel < items.length ∧
      isSeparator (items.getD (settingsUp items sel) .back) = false) ∧
    settingsDown exampleSettings (settingsDown exampleSettings 0) = 4 ∧
    exampleSettings.getD 4 .back = SettingsItem.back := by
  have hex : settingsDown exampleSettings (settingsDown exampleSettings 0) = 4 := by
    have h4 : skipDown exampleSettings 4 = 4 := by
      rw [skipDown, dif_neg (by decide)]
    have h3 : skipDown exampleSettings 3 = 4 := by
      rw [skipDown, dif_pos (by decide), h4]
    have h2 : skipDown exampleSettings 2 = 2 := by
      rw [skipDown, dif_neg (by decide)]
    have h1 : skipDown exampleSettings 1 = 2 := by
      rw [skipDown, dif_pos (by decide), h2]
    have h0 : settingsDown exampleSettings 0 = 2 := by
      rw [settingsDown, if_pos (by decide), h1]
    rw [h0, settingsDown, if_pos (by decide), h3]
  refine ⟨?_, ?_, hex, by decide⟩
  · rw [settingsDown]
    by_cases hlt : sel < items.length - 1
    · rw [if_pos hlt]
      have h := skipDown_spec items hlast (sel + 1) (by omega)
      exact ⟨by omega, by omega, h.2.2⟩
    · rw [if_neg hlt]
      have hse : sel = items.length - 1 := by omega
      exact ⟨le_rfl, hsel, by rw [hse]; exact hlast⟩
  · rw [settingsUp]
    by_cases hpos : 0 < sel
    · rw [if_pos hpos]
      have h := skipUp_spec items hfirst (sel - 1)
      exact ⟨by omega, by omega, h.2⟩
    · rw [if_neg hpos]
      have hse : sel = 0 := by omega
      exact ⟨le_rfl, hsel, by rw [hse]; exact hfirst⟩

/-- A list is a prefix-match of itself followed by anything. -/
theorem prefOf_self_append (p y : List Char) : prefOf p (p ++ y) = true := by
  induction p with
  | nil => rfl
  | cons a p ih => simp [prefOf, ih]

/-- A list is a prefix-match of itself. -/
theorem prefOf_refl (p : List Char) : prefOf p p = true := by
  simpa using prefOf_self_append p []

/-- Extending the searched list to the right preserves a prefix match. -/
theorem prefOf_append_extend (p s y : List Char) (h : prefOf p s = true) :
    prefOf p (s ++ y) = true := by
  induction p generalizing s with
  | nil => rfl
  | cons a p ih =>
    cases s with
    | nil => simp [prefOf] at h
    | cons b s =>
      by_cases hab : a = b <;> simp [prefOf, hab] at h ⊢
      exact ih s h

/-- A pattern longer than the searched list never prefix-matches. -/
theorem prefOf_of_longer (p x : List Char) (h : x.length < p.length) :
    prefOf p x = false := by
  induction p generalizing x with
  | nil => simp at h
  | cons a p ih =>
    cases x with
    | nil => rfl
    | cons b x =>
      by_cases hab : a = b <;> simp [prefOf, hab]
      exact ih x (by simp only [List.length_cons] at h; omega)

/-- A prefix match against `x ++ b` is decided inside `x` when the pattern
fits inside `x`. -/
theorem prefOf_append_eq (p x b : List Char) (h : p.length ≤ x.length) :
    prefOf p (x ++ b) = prefOf p x := by
  induction p generalizing x with
  | nil => rfl
  | cons a p ih =>
    cases x with
    | nil => simp at h
    | cons c x =>
      by_cases hac : a = c <;> simp [prefOf, hac]
      exact ih x (by simp only [List.length_cons] at h; omega)

/-- A prefix match of `p` against `x ++ b` that overruns `x` splits: `x` is
the corresponding front of `p` and the rest of `p` prefix-matches `b`. -/
theorem prefOf_append_split (p x b : List Char) (hle : x.length ≤ p.length)
    (h : prefOf p (x ++ b) = true) :
    x = p.take x.length ∧ prefOf (p.drop x.length) b = true := by
  induction x generalizing p with
  | nil => exact ⟨by simp, by simpa using h⟩
  | cons c x ih =>
    cases p with
    | nil => simp at hle
    | cons a p =>
      by_cases hac : a = c
      · subst hac
        simp only [List.cons_append, prefOf, if_pos rfl] at h
        have hrec := ih p (by simp only [List.length_cons] at hle; omega) h
        refine ⟨?_, ?_⟩
        · simp only [List.length_cons, List.take_succ_cons]
          rw [← hrec.1]
        · simpa only [List.length_cons, List.drop_succ_cons] using hrec.2
      · simp [List.cons_append, prefOf, hac] at h

/-- Every character of a prefix-matched pattern occurs in the list. -/
theorem prefOf_mem (p s : List Char) (h : prefOf p s = true) :
    ∀ x ∈ p, x ∈ s := by
  induction p generalizing s with
  | nil => intro x hx; simp at hx
  | cons a p ih =>
    cases s with
    | nil => simp [prefOf] at h
    | cons b s =>
      by_cases hab : a = b <;> simp [prefOf, hab] at h
      intro x hx
      rcases List.mem_cons.mp hx with h1 | h1
      · subst h1
        subst hab
        exact List.mem_cons_self _ _
      · exact List.mem_cons_of_mem _ (ih s h x h1)

/-- A list ends with itself. -/
theorem sufOf_refl (x : List Char) : sufOf x x = true := prefOf_refl x.reverse

/-- Extending the searched list to the left preserves an end-match. -/
theorem sufOf_cons (x : List Char) (c : Char) (t : List Char)
    (h : sufOf x t = true) : sufOf x (c :: t) = true := by
  unfold sufOf at h ⊢
  rw [List.reverse_cons]
  exact prefOf_append_extend _ _ _ h

/-- An end-match of a drop of `l` is an end-match of `l`. -/
theorem sufOf_drop (x l : List Char) (n : Nat)
    (h : sufOf x (l.drop n) = true) : sufOf x l = true := by
  induction l generalizing n with
  | nil => simpa using h
  | cons c t ih =>
    cases n with
    | zero => simpa using h
    | succ n => exact sufOf_cons x c t (ih n h)

/-- The empty pattern occurs in every list. -/
theorem occursIn_nil_pat (s : List Char) : occursIn [] s = true := by
  cases s <;> simp [occursIn, prefOf]

/-- Every character of an occurring pattern is in the list. -/
theorem occursIn_mem (p s : List Char) (h : occursIn p s = true) :
    ∀ x ∈ p, x ∈ s := by
  induction s with
  | nil =>
    simp only [occursIn, List.isEmpty_iff] at h
    subst h
    intro x hx
    simp at hx
  | cons c t ih =>
    simp only [occursIn, Bool.or_eq_true] at h
    rcases h with h | h
    · exact prefOf_mem p (c :: t) h
    · intro x hx
      exact List.mem_cons_of_mem _ (ih h x hx)

/-- Occurrence is preserved by prepending. -/
theorem occursIn_append_right (p x m : List Char) (h : occursIn p m = true) :
    occursIn p (x ++ m) = true := by
  induction x with
  | nil => simpa using h
  | cons c x ih => simp [occursIn, ih]

/-- A pattern occurs in itself followed by anything. -/
theorem occursIn_self_append (p y : List Char) : occursIn p (p ++ y) = true := by
  cases p with
  | nil => exact occursIn_nil_pat y
  | cons a p =>
    simp only [occursIn, List.cons_append, Bool.or_eq_true]
    exact Or.inl (by simpa using prefOf_self_append (a :: p) y)

/-- If trimming leaves nothing, every character was whitespace. -/
theorem rustTrim_eq_nil_all_ws (l : List Char) (h : rustTrim l = [])
    (x : Char) (hx : x ∈ l) : isWs x = true := by
  unfold rustTrim at h
  rw [List.reverse_eq_nil_iff, List.dropWhile_eq_nil_iff] at h
  have hdw : ∀ y ∈ l.dropWhile isWs, isWs y = true := fun y hy =>
    h y (List.mem_reverse.mpr hy)
  have hsplit := List.takeWhile_append_dropWhile isWs l
  rcases List.mem_append.mp (by rw [hsplit]; exact hx) with h1 | h1
  · exact List.mem_takeWhile_imp h1
  · exact hdw x h1

/-- The turn-marker pattern has 8 characters. -/
theorem userMark_length : userMark.length = 8 := rfl

/-- `countMatches` of the empty transcript. -/
theorem countMatches_nil : countMatches [] = 0 := by
  simp [countMatches]

/-- Zero matches of the turn marker is exactly non-occurrence. -/
theorem countMatches_eq_zero_iff (s : List Char) :
    countMatches s = 0 ↔ occursIn userMark s = false := by
  induction s with
  | nil =>
    simp only [countMatches_nil, occursIn]
    decide
  | cons c t ih =>
    by_cases hp : prefOf userMark (c :: t) = true
    · simp [countMatches.eq_2, occursIn, hp]
    · simp [countMatches.eq_2, occursIn, hp, ih]

/-- A position where the marker does not match contributes no match. -/
theorem countMatches_cons_of_ne (c : Char) (t : List Char)
    (h : prefOf userMark (c :: t) = false) :
    countMatches (c :: t) = countMatches t := by
  rw [countMatches.eq_2, h]
  simp

/-- A transcript beginning with the marker has one match there plus the
matches of the rest. -/
theorem countMatches_mark (X : List Char) :
    countMatches (userMark ++ X) = 1 + countMatches X := by
  have hshape : userMark ++ X =
      '#' :: '#' :: ' ' :: 'U' :: 's' :: 'e' :: 'r' :: ':' :: X := rfl
  rw [hshape, countMatches.eq_2,
    if_pos (by rw [← hshape]; exact prefOf_self_append userMark X)]
  rfl

/-- Greedy match counting distributes over an append across which no
occurrence of the marker spans: no nonempty proper front of the marker both
ends the left part and has the matching remainder begin the right part. -/
theorem countMatches_append_aux (n : Nat) :
    ∀ a : List Char, a.length ≤ n → ∀ b : List Char,
      (∀ k, 0 < k → k < 8 →
        ¬(sufOf (userMark.take k) a = true ∧
          prefOf (userMark.drop k) b = true)) →
      countMatches (a ++ b) = countMatches a + countMatches b := by
  induction n with
  | zero =>
    intro a ha b _
    have hnil : a = [] := List.length_eq_zero.mp (Nat.le_zero.mp ha)
    subst hnil
    simp [countMatches_nil]
  | succ n ih =>
    intro a ha b H
    match a with
    | [] => simp [countMatches_nil]
    | c :: t =>
      have Ht : ∀ k, 0 < k → k < 8 →
          ¬(sufOf (userMark.take k) t = true ∧
            prefOf (userMark.drop k) b = true) := by
        rintro k hk1 hk8 ⟨hs, hp2⟩
        exact H k hk1 hk8 ⟨sufOf_cons _ _ _ hs, hp2⟩
      have hlen : t.length ≤ n := by
        simp only [List.length_cons] at ha
        omega
      by_cases hp : prefOf userMark (c :: (t ++ b)) = true
      · by_cases hbig : 8 ≤ t.length + 1
        · have hpa : prefOf userMark (c :: t) = true := by
            have he := prefOf_append_eq userMark (c :: t) b
              (by rw [userMark_length]; simpa using hbig)
            rw [← he]
            simpa using hp
          rw [List.cons_append, countMatches.eq_2, if_pos hp,
            countMatches.eq_2, if_pos hpa]
          have hdrop : (t ++ b).drop 7 = t.drop 7 ++ b :=
            List.drop_append_of_le_length (by omega)
          have Hd : ∀ k, 0 < k → k < 8 →
              ¬(sufOf (userMark.take k) (t.drop 7) = true ∧
                prefOf (userMark.drop k) b = true) := by
            rintro k hk1 hk8 ⟨hs, hp2⟩
            exact Ht k hk1 hk8 ⟨sufOf_drop _ _ _ hs, hp2⟩
          rw [hdrop, ih (t.drop 7) (by simp only [List.length_drop]; omega) b Hd]
          omega
        · exfalso
          have hsp := prefOf_append_split userMark (c :: t) b
            (by rw [userMark_length]; simp only [List.length_cons]; omega)
            (by simpa using hp)
          refine H (c :: t).length (by simp)
            (by simp only [List.length_cons]; omega) ⟨?_, hsp.2⟩
          rw [← hsp.1]
          exact sufOf_refl _
      · have hpa : prefOf userMark (c :: t) = false := by
          rcases Bool.eq_false_or_eq_true (prefOf userMark (c :: t)) with h1 | h1
          · exact absurd (by simpa using prefOf_append_extend _ _ b h1) hp
          · exact h1
        have hp' : prefOf userMark (c :: (t ++ b)) = false := by
          rcases Bool.eq_false_or_eq_true
            (prefOf userMark (c :: (t ++ b))) with h1 | h1
          · exact absurd h1 hp
          · exact h1
        rw [List.cons_append, countMatches_cons_of_ne _ _ hp',
          countMatches_cons_of_ne _ _ hpa]
        exact ih t hlen b Ht

/-- `countMatches_append_aux` without the explicit length bound. -/
theorem countMatches_append (a b : List Char)
    (H : ∀ k, 0 < k → k < 8 →
      ¬(sufOf (userMark.take k) a = true ∧
        prefOf (userMark.drop k) b = true)) :
    countMatches (a ++ b) = countMatches a + countMatches b :=
  countMatches_append_aux a.length a le_rfl b H

/-- Whitespace-only content has no turn marker. -/
theorem countMatches_trim_nil (l : List Char) (h : rustTrim l = []) :
    countMatches l = 0 := by
  rw [countMatches_eq_zero_iff]
  rcases Bool.eq_false_or_eq_true (occursIn userMark l) with h1 | h1
  · exfalso
    have hmem : ('#' : Char) ∈ l := occursIn_mem _ _ h1 '#' (by decide)
    have hws := rustTrim_eq_nil_all_ws l h '#' hmem
    exact absurd hws (by decide)
  · exact h1

/-- No nonempty proper tail of the marker prefix-matches text that starts
with the 9-character turn header. -/
theorem prefOf_userMark_drop_header (k : Nat) (h1 : 0 < k) (h8 : k < 8)
    (R : List Char) :
    prefOf (userMark.drop k) ("## User: ".toList ++ R) = false := by
  rw [prefOf_append_eq _ _ _
    (by simp only [List.length_drop, userMark_length,
      show ("## User: ".toList).length = 9 from rfl]; omega)]
  interval_cases k <;> decide

/-- No nonempty proper tail of the marker prefix-matches text that starts
with a newline. -/
theorem prefOf_userMark_drop_nl (k : Nat) (h1 : 0 < k) (h8 : k < 8)
    (rest : List Char) :
    prefOf (userMark.drop k) ('\n' :: rest) = false := by
  interval_cases k <;> rfl

/-- No nonempty proper front of the marker ends the blank separator line. -/
theorem sufOf_userMark_take_nn (k : Nat) (h1 : 0 < k) (h8 : k < 8) :
    sufOf (userMark.take k) ("\n\n".toList) = false := by
  interval_cases k <;> decide

/-- No nonempty proper front of the marker ends the assistant header. -/
theorem sufOf_userMark_take_asst (k : Nat) (h1 : 0 < k) (h8 : k < 8) :
    sufOf (userMark.take k) ("## Assistant:\n".toList) = false := by
  interval_cases k <;> decide

/-- The marker does not match at a space. -/
theorem prefOf_userMark_space (X : List Char) :
    prefOf userMark (' ' :: X) = false := rfl

/-- The appended turn block holds exactly one marker when neither the user
text nor the response contains one. -/
theorem countMatches_block (u r : List Char)
    (hu : occursIn userMark u = false) (hr : occursIn userMark r = false) :
    countMatches ("## User: ".toList ++ (u ++ ("\n\n".toList ++
      ("## Assistant:\n".toList ++ (r ++ "\n\n".toList))))) = 1 := by
  have hD : countMatches (r ++ "\n\n".toList) = 0 := by
    rw [countMatches_append r ("\n\n".toList) ?hnospan,
      (countMatches_eq_zero_iff r).mpr hr,
      (countMatches_eq_zero_iff _).mpr (by decide)]
    case hnospan =>
      rintro k hk1 hk8 ⟨-, hpf⟩
      rw [show ("\n\n".toList : List Char) = '\n' :: ['\n'] from rfl,
        prefOf_userMark_drop_nl k hk1 hk8] at hpf
      exact Bool.noConfusion hpf
  have hC : countMatches ("## Assistant:\n".toList ++ (r ++ "\n\n".toList)) =
      0 := by
    rw [countMatches_append _ _ ?hnospan, hD,
      (countMatches_eq_zero_iff _).mpr (by decide)]
    case hnospan =>
      rintro k hk1 hk8 ⟨hsf, -⟩
      rw [sufOf_userMark_take_asst k hk1 hk8] at hsf
      exact Bool.noConfusion hsf
  have hB : countMatches ("\n\n".toList ++ ("## Assistant:\n".toList ++
      (r ++ "\n\n".toList))) = 0 := by
    rw [countMatches_append _ _ ?hnospan, hC,
      (countMatches_eq_zero_iff _).mpr (by decide)]
    case hnospan =>
      rintro k hk1 hk8 ⟨hsf, -⟩
      rw [sufOf_userMark_take_nn k hk1 hk8] at hsf
      exact Bool.noConfusion hsf
  have hR : countMatches (u ++ ("\n\n".toList ++ ("## Assistant:\n".toList ++
      (r ++ "\n\n".toList)))) = 0 := by
    rw [countMatches_append _ _ ?hnospan, hB,
      (countMatches_eq_zero_iff u).mpr hu]
    case hnospan =>
      rintro k hk1 hk8 ⟨-, hpf⟩
      rw [show ("\n\n".toList ++ ("## Assistant:\n".toList ++
          (r ++ "\n\n".toList)) : List Char) =
          '\n' :: ('\n' :: ("## Assistant:\n".toList ++
            (r ++ "\n\n".toList))) from rfl,
        prefOf_userMark_drop_nl k hk1 hk8] at hpf
      exact Bool.noConfusion hpf
  rw [show ("## User: ".toList ++ (u ++ ("\n\n".toList ++
      ("## Assistant:\n".toList ++ (r ++ "\n\n".toList)))) : List Char) =
      userMark ++ (' ' :: (u ++ ("\n\n".toList ++ ("## Assistant:\n".toList ++
        (r ++ "\n\n".toList))))) from rfl,
    countMatches_mark, countMatches_cons_of_ne _ _ (prefOf_userMark_space _),
    hR]

/-- Appending the turn block to any prior content adds exactly one marker
match (when the two texts contain none). -/
theorem countMatches_content (old u r : List Char)
    (hu : occursIn userMark u = false) (hr : occursIn userMark r = false) :
    countMatches (old ++ ("## User: ".toList ++ (u ++ ("\n\n".toList ++
      ("## Assistant:\n".toList ++ (r ++ "\n\n".toList)))))) =
      countMatches old + 1 := by
  rw [countMatches_append old _ ?hnospan, countMatches_block u r hu hr]
  case hnospan =>
    rintro k hk1 hk8 ⟨-, hpf⟩
    rw [prefOf_userMark_drop_header k hk1 hk8] at hpf
    exact Bool.noConfusion hpf

/-- For a file no older than the timeout, the turn count is the match count
of its content (whitespace-only content has no matches anyway). -/
theorem getSessionTurnCount_fresh (c : List Char) (age : Nat)
    (hage : age ≤ SESSION_TIMEOUT) :
    getSessionTurnCount (some (c, age)) = countMatches c := by
  have hclean : cleanupStaleSession (some (c, age)) = some (c, age) := by
    simp only [cleanupStaleSession]
    rw [if_neg (by omega)]
  by_cases h : rustTrim c = []
  · simp only [getSessionTurnCount, getSessionHistory, hclean, if_pos h]
    exact (countMatches_trim_nil c h).symm
  · simp only [getSessionTurnCount, getSessionHistory, hclean, if_neg h]

/-- C5 (counterexample): the turn counter does not always increase by
exactly 1.  Appending a turn whose user text is itself the marker "## User:"
to an empty store raises it by 2; and appending an ordinary turn to a stale
one-turn transcript raises it from 0 (stale reads as absent) to 2. -/
theorem session_turn_counter_not_one :
    getSessionTurnCount (appendToSession none ("## User:".toList)
      ("ok".toList)) ≠ getSessionTurnCount none + 1 ∧
    getSessionTurnCount (appendToSession
        (some ("## User: a\n\n## Assistant:\nb\n\n".toList, 3601))
        ("x".toList) ("y".toList)) ≠
      getSessionTurnCount
        (some ("## User: a\n\n## Assistant:\nb\n\n".toList, 3601)) + 1 := by
  constructor
  · have happ : appendToSession none ("## User:".toList) ("ok".toList) =
        some ("## User: ".toList ++ ("## User:".toList ++ ("\n\n".toList ++
          ("## Assistant:\n".toList ++ ("ok".toList ++ "\n\n".toList)))), 0) :=
      rfl
    rw [happ, getSessionTurnCount_fresh _ 0 (Nat.zero_le _)]
    rw [show ("## User: ".toList ++ ("## User:".toList ++ ("\n\n".toList ++
        ("## Assistant:\n".toList ++ ("ok".toList ++ "\n\n".toList)))) :
        List Char) =
        userMark ++ (' ' :: (userMark ++ ("\n\n".toList ++
          ("## Assistant:\n".toList ++ ("ok".toList ++ "\n\n".toList)))))
      from rfl]
    rw [countMatches_mark,
      countMatches_cons_of_ne _ _ (prefOf_userMark_space _),
      countMatches_mark, (countMatches_eq_zero_iff _).mpr (by decide)]
    have h0 : getSessionTurnCount none = 0 := rfl
    omega
  · have hbefore : getSessionTurnCount
        (some ("## User: a\n\n## Assistant:\nb\n\n".toList, 3601)) = 0 := rfl
    have happ : appendToSession
        (some ("## User: a\n\n## Assistant:\nb\n\n".toList, 3601))
        ("x".toList) ("y".toList) =
        some ("## User: a\n\n## Assistant:\nb\n\n".toList ++
          ("## User: ".toList ++ ("x".toList ++ ("\n\n".toList ++
            ("## Assistant:\n".toList ++ ("y".toList ++ "\n\n".toList))))),
          0) := rfl
    rw [happ, getSessionTurnCount_fresh _ 0 (Nat.zero_le _),
      countMatches_content _ _ _ (by decide) (by decide), hbefore]
    rw [show ("## User: a\n\n## Assistant:\nb\n\n".toList : List Char) =
        userMark ++ (' ' :: "a\n\n## Assistant:\nb\n\n".toList) from rfl,
      countMatches_mark, (countMatches_eq_zero_iff _).mpr (by decide)]
    omega

/-- C5 (amended): appending a turn and reading the transcript back always —
for every store state, user text and response — yields content containing
both the literal user text and the literal response; and provided the
transcript file was not already stale and neither text contains the turn
marker "## User:", the turn counter increases by exactly 1. -/
theorem session_round_trip (s : SessionFile) (u r : List Char) :
    (∃ c, (getSessionHistory (appendToSession s u r)).1 = some c ∧
      occursIn u c = true ∧ occursIn r c = true) ∧
    ((∀ c age, s = some (c, age) → age ≤ SESSION_TIMEOUT) →
      occursIn userMark u = false → occursIn userMark r = false →
      getSessionTurnCount (appendToSession s u r) =
        getSessionTurnCount s + 1) := by
  obtain ⟨old, hold, holdcount⟩ : ∃ old,
      appendToSession s u r = some (old ++ ("## User: ".toList ++ (u ++
        ("\n\n".toList ++ ("## Assistant:\n".toList ++
          (r ++ "\n\n".toList))))), 0) ∧
      ((∀ c age, s = some (c, age) → age ≤ SESSION_TIMEOUT) →
        getSessionTurnCount s = countMatches old) := by
    match s with
    | none => exact ⟨[], rfl, fun _ => by rw [countMatches_nil]; rfl⟩
    | some (c, age) =>
      exact ⟨c, rfl, fun hstale =>
        by rw [getSessionTurnCount_fresh c age (hstale c age rfl)]⟩
  have hne : rustTrim (old ++ ("## User: ".toList ++ (u ++ ("\n\n".toList ++
      ("## Assistant:\n".toList ++ (r ++ "\n\n".toList)))))) ≠ [] := by
    intro hh
    have hws := rustTrim_eq_nil_all_ws _ hh '#'
      (List.mem_append.mpr (Or.inr (List.mem_append.mpr
        (Or.inl (by decide)))))
    exact absurd hws (by decide)
  have hclean : cleanupStaleSession (some (old ++ ("## User: ".toList ++
      (u ++ ("\n\n".toList ++ ("## Assistant:\n".toList ++
        (r ++ "\n\n".toList))))), 0)) =
      some (old ++ ("## User: ".toList ++ (u ++ ("\n\n".toList ++
        ("## Assistant:\n".toList ++ (r ++ "\n\n".toList))))), 0) := by
    simp only [cleanupStaleSession]
    rw [if_neg (by omega)]
  have hhist : (getSessionHistory (some (old ++ ("## User: ".toList ++
      (u ++ ("\n\n".toList ++ ("## Assistant:\n".toList ++
        (r ++ "\n\n".toList))))), 0))).1 =
      some (old ++ ("## User: ".toList ++ (u ++ ("\n\n".toList ++
        ("## Assistant:\n".toList ++ (r ++ "\n\n".toList)))))) := by
    simp only [getSessionHistory, hclean, if_neg hne]
  rw [hold]
  refine ⟨⟨old ++ ("## User: ".toList ++ (u ++ ("\n\n".toList ++
    ("## Assistant:\n".toList ++ (r ++ "\n\n".toList))))),
    hhist, ?_, ?_⟩, ?_⟩
  · exact occursIn_append_right u old _
      (occursIn_append_right u ("## User: ".toList) _
        (occursIn_self_append u _))
  · exact occursIn_append_right r old _
      (occursIn_append_right r ("## User: ".toList) _
        (occursIn_append_right r u _
          (occursIn_append_right r ("\n\n".toList) _
            (occursIn_append_right r ("## Assistant:\n".toList) _
              (occursIn_self_append r ("\n\n".toList))))))
  · intro hstale hu hr
    rw [getSessionTurnCount_fresh _ 0 (Nat.zero_le _),
      countMatches_content old u r hu hr, holdcount hstale]

/-- C5 witness: an ordinary turn appended to an absent transcript, with the
counter hypotheses discharged. -/
theorem session_round_trip_witness :
    (∃ c, (getSessionHistory (appendToSession none ("list files".toList)
        ("ls -la".toList))).1 = some c ∧
      occursIn ("list files".toList) c = true ∧
      occursIn ("ls -la".toList) c = true) ∧
    getSessionTurnCount (appendToSession none ("list files".toList)
        ("ls -la".toList)) =
      getSessionTurnCount none + 1 :=
  ⟨(session_round_trip none ("list files".toList) ("ls -la".toList)).1,
   (session_round_trip none ("list files".toList) ("ls -la".toList)).2
     (fun _ _ h => Option.noConfusion h) (by decide) (by decide)⟩

/-- C8 witness: the example settings list, selection on `ChangeProvider`. -/
theorem settings_nav_skips_separators_witness :
    (0 ≤ settingsDown exampleSettings 0 ∧
      settingsDown exampleSettings 0 < exampleSettings.length ∧
      isSeparator (exampleSettings.getD (settingsDown exampleSettings 0)
        .back) = false) ∧
    (settingsUp exampleSettings 0 ≤ 0 ∧
      settingsUp exampleSettings 0 < exampleSettings.length ∧
      isSeparator (exampleSettings.getD (settingsUp exampleSettings 0)
        .back) = false) ∧
    settingsDown exampleSettings (settingsDown exampleSettings 0) = 4 ∧
    exampleSettings.getD 4 .back = SettingsItem.back :=
  settings_nav_skips_separators exampleSettings 0 (by decide) (by decide)
    (by decide)

end CmdK
